import Mathlib

/-!
Verification of the CalendarSync reconciliation engine
(`src/sync_engine.py` of RobbyG1989/CalendarSync).

The engine's data is shallowly embedded as follows.

* A Python `str` is a Lean `String` (a list of characters).
* A Python `datetime` is a `PyDateTime`: `wall` is the wall-clock time in
  whole seconds (an integer), `micro` the additional microseconds in
  `[0, 1000000)`, and `tzOffset` the UTC offset in seconds carried by an
  aware value (`none` for a naive value).  `datetime.replace(microsecond=0)`
  drops `micro`; `astimezone(utc)` of an aware value yields the instant
  `wall - offset`; `pytz`'s `localize` of a naive value attaches the
  configured zone's offset for that wall time, so the resulting UTC instant
  is `wall - f wall` where `f` is the zone's offset function.
* A possibly-missing time field (`Optional[datetime]`) is `Option PyDateTime`.
  Only `None` time values are falsy in Python; a `datetime` is always truthy.
* The configured timezone is `localizeOffset : Option (Int → Int)`:
  `some f` is a valid IANA zone with offset function `f`, `none` models an
  invalid zone name, for which `pytz.timezone(...)` raises (the source
  catches this inside `_times_match` and
  `_has_significant_time_difference`).
* The formatted events produced by both backend clients
  (`format_event_for_sync` in `google_calendar.py` / `icloud_calendar.py`)
  always carry the keys `id`, `summary`, `description`, `location`,
  `start`, `end`, `all_day`, `source`; text fields are strings (coalesced
  with `or ''` / `.get(..., '')`), `id` may be `None`, and `start`/`end`
  are `None` exactly when parsing failed.  `CalEvent` mirrors this record;
  the `raw_data` field is carried through by the source and never read by
  the engine, so it is omitted here.  The Python field `end` is the Lean
  field `stop` (`end` is a Lean keyword).
* `_calculate_event_hash` MD5-hashes the string
  `f"{normalized summary}|{str(start)}|{str(end)}"`.  `str` of a `datetime`
  renders wall time, microseconds and (for aware values) the UTC offset,
  so it is injective on `PyDateTime`, and `str(None) = 'None'` has a shape
  no `datetime` rendering has; the date-time renderings contain no `'|'`,
  so the triple (normalized summary, start, end) determines the hashed
  string and vice versa.  MD5 is a fixed deterministic digest (the spec
  explicitly waives collision handling), so fingerprint equality in the
  engine is driven exactly by equality of this triple; we model the
  fingerprint as the triple `HashKey` itself.
* Backend mutation calls are recorded as a `MutCall` trace.  The payload
  conversions `_convert_to_icloud_format` (a plain field copy, never
  raises) and `_convert_to_google_format` (which can raise, inside the
  caller's `try`, on a missing time, an invalid configured zone, or an
  aware end paired with a naive start) are modelled by carrying the source
  event in the call and by `convert_to_google_ok`, which states exactly
  when the conversion succeeds.  A backend behaviour `MutCall → Bool`
  says whether a given call raises; the engine's `try/except` blocks are
  translated by recording the failure flag in the trace and continuing.
-/

namespace CalendarSync

/-- The whitespace characters of Python's `str.split` / `str.strip`
(ASCII range, which is all the engine's data contains). -/
def pyIsSpace (c : Char) : Bool :=
  c = ' ' || c = '\t' || c = '\n' || c = '\r' || c = '\x0b' || c = '\x0c'

/-- Fuel-indexed worker for `replaceAll`.  The fuel is only there to make
the recursion structural; `replaceAll` always supplies enough. -/
def raF (p r : List Char) : Nat → List Char → List Char
  | _, [] => []
  | 0, s => s
  | fuel + 1, c :: cs =>
    if p.isPrefixOf (c :: cs) then r ++ raF p r fuel (cs.drop (p.length - 1))
    else c :: raF p r fuel cs

/-- Python's `str.replace(p, r)`: leftmost non-overlapping replacement,
continuing after each replaced occurrence. -/
def replaceAll (p r s : List Char) : List Char := raF p r s.length s

/-- Accumulator-based splitting on whitespace, mirroring Python's
`str.split()` (no argument): maximal runs of whitespace separate words,
leading/trailing whitespace produces no empty words. -/
def wordsAux : List Char → List Char → List (List Char)
  | [], acc => if acc.isEmpty then [] else [acc.reverse]
  | c :: cs, acc =>
    if pyIsSpace c then
      (if acc.isEmpty then wordsAux cs [] else acc.reverse :: wordsAux cs [])
    else wordsAux cs (c :: acc)

def words (s : List Char) : List (List Char) := wordsAux s []

/-- Python's `str.strip()`. -/
def pyStrip (s : List Char) : List Char :=
  ((s.dropWhile pyIsSpace).reverse.dropWhile pyIsSpace).reverse

/-- The four sequential `str.replace` calls of `_normalize_text`, in source
order: `\\,`→`,`, then `\\;`→`;`, then `\\n`→newline, then `\\\\`→`\\`. -/
def unescape (s : List Char) : List Char :=
  replaceAll ['\\', '\\'] ['\\']
    (replaceAll ['\\', 'n'] ['\n']
      (replaceAll ['\\', ';'] [';']
        (replaceAll ['\\', ','] [','] s)))

def joinWords (ws : List (List Char)) : List Char := List.intercalate [' '] ws

/-- `_normalize_text`: `''` for falsy input, else strip, unescape the four
calendar-export escape sequences, collapse whitespace runs
(`' '.join(text.split())`) and lower-case. -/
def normalize_text (s : String) : String :=
  if s = "" then ""
  else String.mk ((joinWords (words (unescape (pyStrip s.data)))).map Char.toLower)

/-- A Python `datetime`, see the module docstring. -/
structure PyDateTime where
  wall : Int
  micro : Nat
  tzOffset : Option Int
deriving DecidableEq

/-- A formatted event record as produced by `format_event_for_sync`. -/
structure CalEvent where
  evId : Option String
  summary : String
  description : String
  location : String
  start : Option PyDateTime
  stop : Option PyDateTime
  allDay : Bool
  source : String
deriving DecidableEq

/-- The configuration consumed by the engine: the configured timezone
(as an offset function, `none` when the zone name is invalid) and the
`source_of_truth` setting. -/
structure SyncConfig where
  localizeOffset : Option (Int → Int)
  sourceOfTruth : String

/-- The content fingerprint of `_calculate_event_hash`: the triple that
determines (and is determined by) the MD5-hashed string
`f"{normalized summary}|{str(start)}|{str(end)}"`; see the module docstring
for why equality of this triple coincides with equality of the digest. -/
structure HashKey where
  summaryPart : String
  startPart : Option PyDateTime
  endPart : Option PyDateTime
deriving DecidableEq

def calculate_event_hash (e : CalEvent) : HashKey :=
  ⟨normalize_text e.summary, e.start, e.stop⟩

/-- `_times_match`.  Both falsy (`None`) inputs yield `False`; both aware:
compare UTC instants after truncating microseconds; both naive: compare
wall times after truncating microseconds; mixed: localize the naive one in
the configured zone, which raises for an invalid zone — that exception is
caught and the fallback `str(time1) == str(time2)` runs (`str` is injective
on datetimes, so the fallback is structural equality of the values). -/
def times_match (cfg : SyncConfig) : Option PyDateTime → Option PyDateTime → Bool
  | some a, some b =>
    match a.tzOffset, b.tzOffset with
    | some o1, some o2 => decide (((a.wall - o1) - (b.wall - o2)).natAbs ≤ 60)
    | none, none => decide ((a.wall - b.wall).natAbs ≤ 60)
    | some o1, none =>
      match cfg.localizeOffset with
      | some f => decide (((a.wall - o1) - (b.wall - f b.wall)).natAbs ≤ 60)
      | none => a == b
    | none, some o2 =>
      match cfg.localizeOffset with
      | some f => decide (((a.wall - f a.wall) - (b.wall - o2)).natAbs ≤ 60)
      | none => a == b
  | _, _ => false

/-- The UTC instant of a datetime in microseconds (no truncation), as used
by `_has_significant_time_difference`; `none` when normalization raises
(naive value, invalid configured zone). -/
def microInstant (cfg : SyncConfig) (t : PyDateTime) : Option Int :=
  match t.tzOffset with
  | some o => some ((t.wall - o) * 1000000 + (t.micro : Int))
  | none => cfg.localizeOffset.map (fun f => (t.wall - f t.wall) * 1000000 + (t.micro : Int))

/-- `_has_significant_time_difference`: `False` when any input is missing
or any normalization raises; otherwise true iff the start difference or
the end difference exceeds 300 seconds (compared in microseconds, no
truncation — `total_seconds()` keeps the fraction). -/
def has_significant_time_difference (cfg : SyncConfig)
    (ss ts se te : Option PyDateTime) : Bool :=
  match ss, ts, se, te with
  | some a, some b, some c, some d =>
    match microInstant cfg a, microInstant cfg b, microInstant cfg c, microInstant cfg d with
    | some ia, some ib, some ic, some id2 =>
      decide ((ia - ib).natAbs > 300000000 ∨ (ic - id2).natAbs > 300000000)
    | _, _, _, _ => false
  | _, _, _, _ => false

/-- `_needs_update`: normalized-text comparison on title and description,
`_times_match` comparison on start and end. -/
def needs_update (cfg : SyncConfig) (s t : CalEvent) : Bool :=
  (normalize_text s.summary != normalize_text t.summary)
  || (normalize_text s.description != normalize_text t.description)
  || !(times_match cfg s.start t.start)
  || !(times_match cfg s.stop t.stop)

/-- `_find_rescheduled_event`: `None` when the source's normalized summary
is empty or a time is missing; otherwise the first target whose normalized
summary matches, whose times are not both a time-match, whose time
difference is significant, and whose normalized description matches
(both nonempty and equal) or is empty on both sides. -/
def find_rescheduled_event (cfg : SyncConfig) (s : CalEvent)
    (target : List CalEvent) : Option CalEvent :=
  let ssum := normalize_text s.summary
  let sdesc := normalize_text s.description
  if ssum = "" || s.start == none || s.stop == none then none
  else
    target.find? fun t =>
      let tsum := normalize_text t.summary
      let tdesc := normalize_text t.description
      let summaryMatch := ssum == tsum
      let descriptionMatch := sdesc != "" && tdesc != "" && sdesc == tdesc
      let startM := times_match cfg s.start t.start
      let endM := times_match cfg s.stop t.stop
      let timesActuallyDifferent := !(startM && endM)
      summaryMatch && timesActuallyDifferent
        && has_significant_time_difference cfg s.start t.start s.stop t.stop
        && (descriptionMatch || (sdesc == "" && tdesc == ""))

/-- `_find_similar_event`: `None` when the source's normalized summary is
empty or a time is missing; otherwise the first target with matching
normalized summary and time-matching start and end. -/
def find_similar_event (cfg : SyncConfig) (s : CalEvent)
    (target : List CalEvent) : Option CalEvent :=
  let ssum := normalize_text s.summary
  if ssum = "" || s.start == none || s.stop == none then none
  else
    target.find? fun t =>
      (ssum == normalize_text t.summary)
        && times_match cfg s.start t.start
        && times_match cfg s.stop t.stop

/-- The `target_lookup` dict of `_sync_events`: inserting every target
keyed by its hash, later inserts overwriting earlier ones, so a lookup
returns the last target in list order with the given hash. -/
def target_lookup (target : List CalEvent) (h : HashKey) : Option CalEvent :=
  target.reverse.find? fun t => calculate_event_hash t == h

/-- The classification of one source event by the `_sync_events` loop body:
exact hash match (update or skip), reschedule (skip under
`avoid_conflicts`, else update), fuzzy similar (skip), or create. -/
inductive Action where
  | exactUpdate (t : CalEvent)
  | exactSkip
  | reschedUpdate (t : CalEvent)
  | reschedSkip
  | similarSkip
  | create
deriving DecidableEq

/-- A backend mutation call: the three call sites
`icloud_client.create_event`, `google_client.create_event` and
`google_client.update_event` reachable from the engine. -/
inductive MutCall where
  | icloudCreate (e : CalEvent)
  | googleCreate (e : CalEvent)
  | googleUpdate (targetId : String) (e : CalEvent)
deriving DecidableEq

structure SyncStats where
  created : Nat
  updated : Nat
  skipped : Nat
deriving DecidableEq

/-- When `_convert_to_google_format` returns normally: both times present
(otherwise `.strftime`/`.tzinfo` on `None` raises); for timed events with
a naive start, the configured zone must be valid (`pytz.timezone` raises
otherwise) and the end must also be naive (`localize` of an aware value
raises `ValueError`). -/
def convert_to_google_ok (cfg : SyncConfig) (e : CalEvent) : Bool :=
  match e.start, e.stop with
  | some a, some c =>
    if e.allDay then true
    else
      match a.tzOffset with
      | some _ => true
      | none => cfg.localizeOffset.isSome && c.tzOffset == none
  | _, _ => false

/-- `_create_event_in_target`: the backend calls it attempts.  For
`google_to_icloud` the iCloud conversion never raises and
`icloud_client.create_event` is called; for `icloud_to_google` the Google
conversion may raise (inside the `try`), in which case no backend call
happens; any other direction string makes no call. -/
def create_event_calls (cfg : SyncConfig) (e : CalEvent) (direction : String) :
    List MutCall :=
  if direction = "google_to_icloud" then [MutCall.icloudCreate e]
  else if direction = "icloud_to_google" then
    (if convert_to_google_ok cfg e then [MutCall.googleCreate e] else [])
  else []

/-- `_update_event_in_target`: for `google_to_icloud` the iCloud update is
a stub (it only prints), so no backend call is made; for
`icloud_to_google` the Google conversion may raise, and the update is only
issued when the target has a truthy id (`if event_id:` — absent and empty
ids both skip the call). -/
def update_event_calls (cfg : SyncConfig) (s t : CalEvent) (direction : String) :
    List MutCall :=
  if direction = "google_to_icloud" then []
  else if direction = "icloud_to_google" then
    (if convert_to_google_ok cfg s then
      (match t.evId with
       | some i => if i = "" then [] else [MutCall.googleUpdate i s]
       | none => [])
     else [])
  else []

/-- The decision tree of the `_sync_events` loop body for one source
event, in source order: exact hash tier, reschedule tier, fuzzy tier,
create. -/
def classify (cfg : SyncConfig) (target : List CalEvent) (avoidConflicts : Bool)
    (s : CalEvent) : Action :=
  match target_lookup target (calculate_event_hash s) with
  | some t => if needs_update cfg s t then Action.exactUpdate t else Action.exactSkip
  | none =>
    match find_rescheduled_event cfg s target with
    | some t => if avoidConflicts then Action.reschedSkip else Action.reschedUpdate t
    | none =>
      match find_similar_event cfg s target with
      | some _ => Action.similarSkip
      | none => Action.create

/-- The backend calls attempted for one classified source event. -/
def action_calls (cfg : SyncConfig) (direction : String) (s : CalEvent) :
    Action → List MutCall
  | Action.exactUpdate t => update_event_calls cfg s t direction
  | Action.reschedUpdate t => update_event_calls cfg s t direction
  | Action.create => create_event_calls cfg s direction
  | _ => []

/-- The `stats` counter updates of `_sync_events`. -/
def bump (a : Action) (st : SyncStats) : SyncStats :=
  match a with
  | Action.exactUpdate _ => { st with updated := st.updated + 1 }
  | Action.reschedUpdate _ => { st with updated := st.updated + 1 }
  | Action.create => { st with created := st.created + 1 }
  | _ => { st with skipped := st.skipped + 1 }

/-- The observable outcome of one `_sync_events` pass: the returned
counters, the per-source-event classification (the action log), and the
attempted backend calls, each paired with whether the backend raised on it
(the engine catches and logs such failures). -/
structure SyncOutcome where
  stats : SyncStats
  decisions : List Action
  calls : List (MutCall × Bool)
deriving DecidableEq

/-- `_sync_events`, parameterized over the backend behaviour
`backendFails` (whether a given call raises). -/
def sync_events (cfg : SyncConfig) (backendFails : MutCall → Bool)
    (source target : List CalEvent) (direction : String)
    (dryRun avoidConflicts : Bool) : SyncOutcome :=
  match source with
  | [] => ⟨⟨0, 0, 0⟩, [], []⟩
  | s :: rest =>
    let a := classify cfg target avoidConflicts s
    let tail := sync_events cfg backendFails rest target direction dryRun avoidConflicts
    ⟨bump a tail.stats, a :: tail.decisions,
     (if dryRun then []
      else (action_calls cfg direction s a).map (fun c => (c, backendFails c)))
       ++ tail.calls⟩

/-- The aggregate result dict of `_sync_bidirectional`. -/
structure SyncResult where
  processed : Nat
  created : Nat
  updated : Nat
  deleted : Nat
  skipped : Nat
deriving DecidableEq

/-- `_sync_bidirectional`: resolve `auto` to `google`; the winning
direction runs first without conflict avoidance, the losing one second
with `avoid_conflicts=True`; counters are summed element-wise.  The call
trace is the first pass's calls followed by the second pass's. -/
def sync_bidirectional (cfg : SyncConfig) (backendFails : MutCall → Bool)
    (googleEvents icloudEvents : List CalEvent) (dryRun : Bool) :
    SyncResult × List (MutCall × Bool) :=
  let sot := if cfg.sourceOfTruth = "auto" then "google" else cfg.sourceOfTruth
  let passes :=
    if sot = "google" then
      (sync_events cfg backendFails googleEvents icloudEvents "google_to_icloud" dryRun false,
       sync_events cfg backendFails icloudEvents googleEvents "icloud_to_google" dryRun true)
    else
      (sync_events cfg backendFails icloudEvents googleEvents "icloud_to_google" dryRun false,
       sync_events cfg backendFails googleEvents icloudEvents "google_to_icloud" dryRun true)
  (⟨googleEvents.length + icloudEvents.length,
    passes.1.stats.created + passes.2.stats.created,
    passes.1.stats.updated + passes.2.stats.updated,
    0,
    passes.1.stats.skipped + passes.2.stats.skipped⟩,
   passes.1.calls ++ passes.2.calls)

/-- The time-match predicate as §4.2 of the spec words it, for comparison
with the translated `times_match`: false when either input is null;
normalize timezone-awareness (common zone when both aware, direct
comparison when both naive, localize the naive one when mixed); truncate
to whole seconds; true iff the absolute difference is at most 60 seconds;
false on any conversion failure (here: a mixed pair under an invalid
configured zone). -/
def timesMatchSpec (cfg : SyncConfig) : Option PyDateTime → Option PyDateTime → Bool
  | some a, some b =>
    match a.tzOffset, b.tzOffset with
    | some o1, some o2 => decide (((a.wall - o1) - (b.wall - o2)).natAbs ≤ 60)
    | none, none => decide ((a.wall - b.wall).natAbs ≤ 60)
    | some o1, none =>
      match cfg.localizeOffset with
      | some f => decide (((a.wall - o1) - (b.wall - f b.wall)).natAbs ≤ 60)
      | none => false
    | none, some o2 =>
      match cfg.localizeOffset with
      | some f => decide (((a.wall - f a.wall) - (b.wall - o2)).natAbs ≤ 60)
      | none => false
  | _, _ => false

/-- A backend on which no call raises. -/
def neverFail : MutCall → Bool := fun _ => false

/-- A concrete valid configuration: UTC (offset function constantly 0),
`source_of_truth = auto`. -/
def cfgUTC : SyncConfig := ⟨some (fun _ => 0), "auto"⟩

/-- An event whose time fields failed to parse (both absent). -/
def evNoTimes : CalEvent := ⟨none, "meeting", "", "", none, none, false, "google"⟩

/-- A timed event used on the reschedule boundary: summary `Standup`,
aware UTC start at the given second, end 1800 seconds later. -/
def evStandup (startSec : Int) : CalEvent :=
  ⟨none, "Standup", "", "", some ⟨startSec, 0, some 0⟩,
   some ⟨startSec + 1800, 0, some 0⟩, false, "google"⟩

/-- The `evStandup` shape tagged as an iCloud-sourced event. -/
def evStandupIC (startSec : Int) : CalEvent :=
  ⟨none, "Standup", "", "", some ⟨startSec, 0, some 0⟩,
   some ⟨startSec + 1800, 0, some 0⟩, false, "icloud"⟩

/-- Summary `\,` (a backslash then a comma). -/
def evEsc1 : CalEvent := ⟨none, "\\,", "", "", none, none, false, "google"⟩

/-- Summary `\\,`: `evEsc1`'s summary with its comma replaced by the
escape sequence `\,`. -/
def evEsc2 : CalEvent := ⟨none, "\\\\,", "", "", none, none, false, "google"⟩

/-- How `avoid_conflicts=True` changes a classification: a reschedule is
deferred to a skip; every other classification is unchanged. -/
def demote : Action → Action
  | Action.reschedUpdate _ => Action.reschedSkip
  | a => a

/-- Calendar-export escaping of one character: `,` `;` newline and `\\`
become the escape sequences `\\,` `\\;` `\\n` `\\\\`. -/
def escChar (c : Char) : List Char :=
  if c = ',' then ['\\', ','] else if c = ';' then ['\\', ';']
  else if c = '\n' then ['\\', 'n'] else if c = '\\' then ['\\', '\\'] else [c]

/-- Calendar-export escaping of a text. -/
def esc (s : List Char) : List Char := (s.map escChar).flatten

/-- `esc` after the comma replacement has been undone. -/
def escCharA (c : Char) : List Char :=
  if c = ';' then ['\\', ';'] else if c = '\n' then ['\\', 'n'] else [c]

def escA (s : List Char) : List Char := (s.map escCharA).flatten

/-- `esc` after the comma and semicolon replacements have been undone. -/
def escCharB (c : Char) : List Char :=
  if c = '\n' then ['\\', 'n'] else [c]

def escB (s : List Char) : List Char := (s.map escCharB).flatten

theorem raF_eq_of_le (p r : List Char) :
    ∀ f1 : Nat, ∀ s : List Char, ∀ f2 : Nat, s.length ≤ f1 → s.length ≤ f2 →
      raF p r f1 s = raF p r f2 s := by
  intro f1
  induction f1 with
  | zero =>
    intro s f2 h1 _
    have hs : s = [] := List.length_eq_zero.mp (Nat.le_zero.mp h1)
    subst hs
    cases f2 <;> rfl
  | succ f ih =>
    intro s f2 h1 h2
    cases s with
    | nil => cases f2 <;> rfl
    | cons c cs =>
      cases f2 with
      | zero => exact absurd h2 (by simp)
      | succ f2' =>
        have hcs : cs.length ≤ f := Nat.le_of_succ_le_succ (by simpa using h1)
        have hcs2 : cs.length ≤ f2' := Nat.le_of_succ_le_succ (by simpa using h2)
        simp only [raF]
        by_cases hp : p.isPrefixOf (c :: cs)
        · rw [if_pos hp, if_pos hp]
          have hd : (cs.drop (p.length - 1)).length ≤ cs.length := by simp
          rw [ih _ f2' (le_trans hd hcs) (le_trans hd hcs2)]
        · rw [if_neg hp, if_neg hp, ih _ f2' hcs hcs2]

theorem replaceAll_nil (p r : List Char) : replaceAll p r [] = [] := rfl

theorem replaceAll_cons (p r : List Char) (c : Char) (cs : List Char) :
    replaceAll p r (c :: cs) =
      if p.isPrefixOf (c :: cs) then r ++ replaceAll p r (cs.drop (p.length - 1))
      else c :: replaceAll p r cs := by
  show raF p r (cs.length + 1) (c :: cs) = _
  simp only [raF]
  by_cases hp : p.isPrefixOf (c :: cs)
  · rw [if_pos hp, if_pos hp]
    have hd : (cs.drop (p.length - 1)).length ≤ cs.length := by simp
    exact congrArg (fun x => r ++ x)
      (raF_eq_of_le p r cs.length _ (cs.drop (p.length - 1)).length hd le_rfl)
  · rw [if_neg hp, if_neg hp]
    exact rfl

/-- C1: for every pair of time values, `_times_match` returns exactly what
the spec prescribes: false when either input is null; otherwise, after
normalizing timezone-awareness and truncating to whole seconds, true iff
the absolute difference is at most 60 seconds; and false on any conversion
failure during normalization (a mixed naive/aware pair under an invalid
configured timezone — the caught exception's `str(a) == str(b)` fallback
always compares a naive rendering with an aware one, which differ). -/
theorem c1_times_match_follows_spec (cfg : SyncConfig) (a b : Option PyDateTime) :
    times_match cfg a b = timesMatchSpec cfg a b := by
  cases a with
  | none => cases b <;> rfl
  | some ta =>
    cases b with
    | none => rfl
    | some tb =>
      obtain ⟨wa, ma, za⟩ := ta
      obtain ⟨wb, mb, zb⟩ := tb
      cases za <;> cases zb <;> cases hcfg : cfg.localizeOffset <;>
        simp [times_match, timesMatchSpec, hcfg]

/-- C9: `_times_match` is symmetric in its two arguments, for all inputs:
null inputs, both-aware, both-naive and mixed pairs, and pairs whose
normalization fails (where the fallback is string equality, itself
symmetric). -/
theorem c9_times_match_symm (cfg : SyncConfig) (a b : Option PyDateTime) :
    times_match cfg a b = times_match cfg b a := by
  cases a with
  | none => cases b <;> rfl
  | some ta =>
    cases b with
    | none => rfl
    | some tb =>
      obtain ⟨wa, ma, za⟩ := ta
      obtain ⟨wb, mb, zb⟩ := tb
      cases za <;> cases zb <;> cases hcfg : cfg.localizeOffset <;>
        simp [times_match, hcfg, decide_eq_decide, beq_iff_eq] <;> omega

/-- C5: a dry run is a faithful preview: for every source list, target
list, direction and conflict mode, running with `dry_run=True` produces
exactly the counters (and per-event classifications) of a real run, and
attempts no backend call at all. -/
theorem c5_dry_run_faithful (cfg : SyncConfig) (b : MutCall → Bool)
    (src tgt : List CalEvent) (dir : String) (avoid : Bool) :
    (sync_events cfg b src tgt dir true avoid).stats
        = (sync_events cfg b src tgt dir false avoid).stats
    ∧ (sync_events cfg b src tgt dir true avoid).decisions
        = (sync_events cfg b src tgt dir false avoid).decisions
    ∧ (sync_events cfg b src tgt dir true avoid).calls = [] := by
  induction src with
  | nil => exact ⟨rfl, rfl, rfl⟩
  | cons s rest ih =>
    refine ⟨?_, ?_, ?_⟩ <;> simp [sync_events, ih.1, ih.2.1, ih.2.2]

/-- C7: backend failures during CREATE/UPDATE are caught and do not abort
the pass: for every backend behaviour, the counters, the per-event
classifications and the attempted calls are those of a never-failing
backend, and every source event is still processed (one classification
per source event).  Counters thus increment for the attempted action even
when the call failed. -/
theorem c7_backend_failures_tolerated (cfg : SyncConfig) (b : MutCall → Bool)
    (src tgt : List CalEvent) (dir : String) (dry avoid : Bool) :
    (sync_events cfg b src tgt dir dry avoid).stats
        = (sync_events cfg neverFail src tgt dir dry avoid).stats
    ∧ (sync_events cfg b src tgt dir dry avoid).decisions
        = (sync_events cfg neverFail src tgt dir dry avoid).decisions
    ∧ (sync_events cfg b src tgt dir dry avoid).calls.map Prod.fst
        = (sync_events cfg neverFail src tgt dir dry avoid).calls.map Prod.fst
    ∧ (sync_events cfg b src tgt dir dry avoid).decisions.length = src.length := by
  induction src with
  | nil => exact ⟨rfl, rfl, rfl, rfl⟩
  | cons s rest ih =>
    refine ⟨?_, ?_, ?_, ?_⟩
    · simp [sync_events, ih.1]
    · simp [sync_events, ih.2.1]
    · cases dry <;> simp [sync_events, ih.2.2.1, Function.comp]
    · simp [sync_events, ih.2.2.2]

/-- C2 counterexample: an event with both times absent, synced against a
target set containing an identical copy, is matched by the exact hash tier
(`str(None)` stringifies equally on both sides) and resolves to an UPDATE
(times never match, so `_needs_update` is true) — the claim says an event
with an absent time never resolves to a skip or update against any target
set. -/
theorem c2_counterexample :
    (sync_events cfgUTC neverFail [evNoTimes] [evNoTimes]
        "google_to_icloud" true false).decisions = [Action.exactUpdate evNoTimes]
    ∧ (sync_events cfgUTC neverFail [evNoTimes] [evNoTimes]
        "google_to_icloud" true false).stats = ⟨0, 1, 0⟩ := by
  exact ⟨rfl, rfl⟩

/-- C3 counterexample: syncing a source list against an identical target
list — which therefore contains a fingerprint-identical, field-identical
copy of each source event — still reports one update (not zero) when an
event's times are absent, because `_needs_update` compares times with
`_times_match`, which is false on null times. -/
theorem c3_counterexample :
    (sync_events cfgUTC neverFail [evNoTimes] [evNoTimes]
        "google_to_icloud" false false).stats.updated = 1 := by
  exact rfl

/-- C4 counterexample: two events with identical summary and description
and a start-time delta of exactly 60 seconds are NOT handled by tier 1:
the 60-second delta changes the stored start time, hence the fingerprint,
so the exact hash tier finds nothing; the event is skipped by the tier-3
fuzzy-duplicate path instead. -/
theorem c4_counterexample :
    target_lookup [evStandup 0] (calculate_event_hash (evStandup 60)) = none
    ∧ (sync_events cfgUTC neverFail [evStandup 60] [evStandup 0]
        "google_to_icloud" true false).decisions = [Action.similarSkip] := by
  exact ⟨rfl, rfl⟩

theorem target_lookup_eq_some_spec (tgt : List CalEvent) (h : HashKey) (t : CalEvent)
    (hf : target_lookup tgt h = some t) : t ∈ tgt ∧ calculate_event_hash t = h := by
  unfold target_lookup at hf
  refine ⟨List.mem_reverse.mp (List.mem_of_find?_eq_some hf), ?_⟩
  simpa [beq_iff_eq] using List.find?_some hf

theorem target_lookup_isSome_of_mem (tgt : List CalEvent) (e : CalEvent)
    (he : e ∈ tgt) : (target_lookup tgt (calculate_event_hash e)).isSome := by
  unfold target_lookup
  rw [List.find?_isSome]
  exact ⟨e, List.mem_reverse.mpr he, by simp⟩

theorem target_lookup_eq_none_spec (tgt : List CalEvent) (h : HashKey)
    (hall : ∀ t ∈ tgt, calculate_event_hash t ≠ h) : target_lookup tgt h = none := by
  unfold target_lookup
  rw [List.find?_eq_none]
  intro t ht
  simpa [beq_iff_eq] using hall t (List.mem_reverse.mp ht)

theorem times_match_refl (cfg : SyncConfig) (t : PyDateTime) :
    times_match cfg (some t) (some t) = true := by
  obtain ⟨w, m, z⟩ := t
  cases z <;> simp [times_match]

theorem times_match_none_left (cfg : SyncConfig) (b : Option PyDateTime) :
    times_match cfg none b = false := by
  cases b <;> rfl

theorem hash_eq_parts (e1 e2 : CalEvent)
    (h : calculate_event_hash e1 = calculate_event_hash e2) :
    normalize_text e1.summary = normalize_text e2.summary
      ∧ e1.start = e2.start ∧ e1.stop = e2.stop := by
  simpa [calculate_event_hash, HashKey.mk.injEq] using h

/-- C2 (amended): a source event with an absent start or end time is never
matched by the reschedule tier or the fuzzy tier (both bail out on missing
times); it is classified CREATE whenever no target shares its fingerprint,
but the exact hash tier can still match it — a target whose times are
identically absent stringifies to the same hashed content — in which case
it resolves to an UPDATE (null times never time-match, so `_needs_update`
is true). -/
theorem c2_missing_times_no_fuzzy_or_reschedule (cfg : SyncConfig) (s : CalEvent)
    (tgt : List CalEvent) (avoid : Bool)
    (hmiss : s.start = none ∨ s.stop = none) :
    find_rescheduled_event cfg s tgt = none
    ∧ find_similar_event cfg s tgt = none
    ∧ ((∀ t ∈ tgt, calculate_event_hash t ≠ calculate_event_hash s) →
        classify cfg tgt avoid s = Action.create)
    ∧ (∀ t, target_lookup tgt (calculate_event_hash s) = some t →
        classify cfg tgt avoid s = Action.exactUpdate t) := by
  have hre : find_rescheduled_event cfg s tgt = none := by
    rcases hmiss with h | h <;> simp [find_rescheduled_event, h]
  have hsi : find_similar_event cfg s tgt = none := by
    rcases hmiss with h | h <;> simp [find_similar_event, h]
  refine ⟨hre, hsi, ?_, ?_⟩
  · intro hall
    simp [classify, target_lookup_eq_none_spec tgt _ hall, hre, hsi]
  · intro t hlook
    have hnu : needs_update cfg s t = true := by
      rcases hmiss with h | h
      · have hzero : times_match cfg s.start t.start = false := by
          rw [h]; exact times_match_none_left cfg t.start
        simp [needs_update, hzero]
      · have hzero : times_match cfg s.stop t.stop = false := by
          rw [h]; exact times_match_none_left cfg t.stop
        simp [needs_update, hzero]
    simp [classify, hlook, hnu]

/-- C2 witness. -/
theorem c2_missing_times_no_fuzzy_or_reschedule_witness :
    (evNoTimes.start = none ∨ evNoTimes.stop = none)
    ∧ find_rescheduled_event cfgUTC evNoTimes [evNoTimes] = none
    ∧ find_similar_event cfgUTC evNoTimes [evNoTimes] = none
    ∧ (∀ t, target_lookup [evNoTimes] (calculate_event_hash evNoTimes) = some t →
        classify cfgUTC [evNoTimes] false evNoTimes = Action.exactUpdate t) := by
  have h := c2_missing_times_no_fuzzy_or_reschedule cfgUTC evNoTimes [evNoTimes] false
    (Or.inl rfl)
  exact ⟨Or.inl rfl, h.1, h.2.1, h.2.2.2⟩

theorem classify_exact_skip_of_member (cfg : SyncConfig) (tgt : List CalEvent)
    (htimes : ∀ e ∈ tgt, e.start ≠ none ∧ e.stop ≠ none)
    (hdesc : ∀ e1 ∈ tgt, ∀ e2 ∈ tgt,
      calculate_event_hash e1 = calculate_event_hash e2 →
        normalize_text e1.description = normalize_text e2.description)
    (s : CalEvent) (hs : s ∈ tgt) (avoid : Bool) :
    classify cfg tgt avoid s = Action.exactSkip := by
  obtain ⟨t, hlook⟩ :=
    Option.isSome_iff_exists.mp (target_lookup_isSome_of_mem tgt s hs)
  obtain ⟨htmem, hthash⟩ := target_lookup_eq_some_spec tgt _ t hlook
  obtain ⟨hsum, hstart, hstop⟩ := hash_eq_parts t s hthash
  have hnu : needs_update cfg s t = false := by
    have hd : normalize_text s.description = normalize_text t.description :=
      hdesc s hs t htmem hthash.symm
    obtain ⟨a, ha⟩ := Option.ne_none_iff_exists'.mp (htimes s hs).1
    obtain ⟨c, hc⟩ := Option.ne_none_iff_exists'.mp (htimes s hs).2
    have h1 : times_match cfg s.start t.start = true := by
      rw [hstart, ha]; exact times_match_refl cfg a
    have h2 : times_match cfg s.stop t.stop = true := by
      rw [hstop, hc]; exact times_match_refl cfg c
    simp [needs_update, hsum, hd, h1, h2]
  simp [classify, hlook, hnu]

theorem sync_events_all_skip (cfg : SyncConfig) (b : MutCall → Bool)
    (tgt : List CalEvent) (dir : String) (dry : Bool) (l : List CalEvent)
    (h : ∀ e ∈ l, classify cfg tgt false e = Action.exactSkip) :
    sync_events cfg b l tgt dir dry false
      = ⟨⟨0, 0, l.length⟩, List.replicate l.length Action.exactSkip, []⟩ := by
  induction l with
  | nil => rfl
  | cons s rest ih =>
    have hs := h s (List.mem_cons_self s rest)
    have ihr := ih (fun e he => h e (List.mem_cons_of_mem s he))
    simp [sync_events, hs, ihr, bump, action_calls, List.replicate_succ]

/-- C3 (amended): running the same pass against an unchanged calendar
yields zero creates and zero updates — every source event resolves to an
exact-match skip — provided every event has both times present (an event
with absent times hash-matches its copy yet `_needs_update` is true on
null times, forcing an update) and no two fingerprint-equal source events
differ in normalized description (the lookup dict keeps only the last
event per fingerprint, so an earlier colliding event would be updated
against the later one's description). -/
theorem c3_second_run_idempotent (cfg : SyncConfig) (b : MutCall → Bool)
    (src : List CalEvent) (dir : String) (dry : Bool)
    (htimes : ∀ e ∈ src, e.start ≠ none ∧ e.stop ≠ none)
    (hdesc : ∀ e1 ∈ src, ∀ e2 ∈ src,
      calculate_event_hash e1 = calculate_event_hash e2 →
        normalize_text e1.description = normalize_text e2.description) :
    (sync_events cfg b src src dir dry false).stats.created = 0
    ∧ (sync_events cfg b src src dir dry false).stats.updated = 0
    ∧ (sync_events cfg b src src dir dry false).stats.skipped = src.length
    ∧ (sync_events cfg b src src dir dry false).decisions
        = List.replicate src.length Action.exactSkip := by
  have hrun := sync_events_all_skip cfg b src dir dry src
    (fun e he => classify_exact_skip_of_member cfg src htimes hdesc e he false)
  rw [hrun]
  exact ⟨rfl, rfl, rfl, rfl⟩

/-- C3 witness. -/
theorem c3_second_run_idempotent_witness :
    (sync_events cfgUTC neverFail [evStandup 0] [evStandup 0]
        "google_to_icloud" false false).stats.created = 0
    ∧ (sync_events cfgUTC neverFail [evStandup 0] [evStandup 0]
        "google_to_icloud" false false).stats.updated = 0 := by
  have h := c3_second_run_idempotent cfgUTC neverFail [evStandup 0]
    "google_to_icloud" false (by decide)
    (by intro e1 h1 e2 h2 hh; simp at h1 h2; rw [h1, h2])
  exact ⟨h.1, h.2.1⟩

theorem classify_avoid_demote (cfg : SyncConfig) (tgt : List CalEvent) (s : CalEvent) :
    classify cfg tgt true s = demote (classify cfg tgt false s) := by
  unfold classify
  cases hl : target_lookup tgt (calculate_event_hash s) with
  | some t => cases hn : needs_update cfg s t <;> simp [hn, demote]
  | none =>
    cases hr : find_rescheduled_event cfg s tgt with
    | some t => simp [demote]
    | none => cases hs2 : find_similar_event cfg s tgt <;> simp [demote]

theorem sync_events_avoid_demote (cfg : SyncConfig) (b : MutCall → Bool)
    (src tgt : List CalEvent) (dir : String) (dry : Bool) :
    (sync_events cfg b src tgt dir dry true).decisions
        = (sync_events cfg b src tgt dir dry false).decisions.map demote
    ∧ (sync_events cfg b src tgt dir dry true).stats.created
        = (sync_events cfg b src tgt dir dry false).stats.created := by
  induction src with
  | nil => exact ⟨rfl, rfl⟩
  | cons s rest ih =>
    constructor
    · simp [sync_events, ih.1, classify_avoid_demote]
    · have hc : ∀ a : Action, ∀ st1 st2 : SyncStats, st1.created = st2.created →
          (bump (demote a) st1).created = (bump a st2).created := by
        intro a st1 st2 h
        cases a <;> simp [bump, demote, h]
      simp only [sync_events, classify_avoid_demote]
      exact hc _ _ _ ih.2

/-- C6: in bidirectional mode with `source_of_truth = auto` (which
resolves to `google`), the Google→iCloud pass runs first with
`avoid_conflicts=False` and the iCloud→Google pass second with
`avoid_conflicts=True` (the returned call trace is the first pass's calls
followed by the second's); the aggregate created/updated/skipped counters
are the element-wise sums of the two passes' counters; and the avoid-
conflicts flag changes only the reschedule tier — the second pass's
classifications are those of an unconstrained pass with each reschedule
update demoted to a skip, creates (and hence the created counter) and
exact-match updates unchanged. -/
theorem c6_bidirectional_auto (cfg : SyncConfig) (b : MutCall → Bool)
    (g i : List CalEvent) (dry : Bool) (hsot : cfg.sourceOfTruth = "auto") :
    (sync_bidirectional cfg b g i dry).1.created
        = (sync_events cfg b g i "google_to_icloud" dry false).stats.created
          + (sync_events cfg b i g "icloud_to_google" dry true).stats.created
    ∧ (sync_bidirectional cfg b g i dry).1.updated
        = (sync_events cfg b g i "google_to_icloud" dry false).stats.updated
          + (sync_events cfg b i g "icloud_to_google" dry true).stats.updated
    ∧ (sync_bidirectional cfg b g i dry).1.skipped
        = (sync_events cfg b g i "google_to_icloud" dry false).stats.skipped
          + (sync_events cfg b i g "icloud_to_google" dry true).stats.skipped
    ∧ (sync_bidirectional cfg b g i dry).2
        = (sync_events cfg b g i "google_to_icloud" dry false).calls
          ++ (sync_events cfg b i g "icloud_to_google" dry true).calls
    ∧ (sync_events cfg b i g "icloud_to_google" dry true).decisions
        = (sync_events cfg b i g "icloud_to_google" dry false).decisions.map demote
    ∧ (sync_events cfg b i g "icloud_to_google" dry true).stats.created
        = (sync_events cfg b i g "icloud_to_google" dry false).stats.created := by
  have hav := sync_events_avoid_demote cfg b i g "icloud_to_google" dry
  refine ⟨?_, ?_, ?_, ?_, hav.1, hav.2⟩ <;> simp [sync_bidirectional, hsot]

/-- C6 witness. -/
theorem c6_bidirectional_auto_witness :
    cfgUTC.sourceOfTruth = "auto"
    ∧ (sync_bidirectional cfgUTC neverFail [evStandup 0] [] false).1.created
        = (sync_events cfgUTC neverFail [evStandup 0] [] "google_to_icloud" false false).stats.created
          + (sync_events cfgUTC neverFail [] [evStandup 0] "icloud_to_google" false true).stats.created := by
  exact ⟨rfl,
    (c6_bidirectional_auto cfgUTC neverFail [evStandup 0] [] false rfl).1⟩

theorem bne_or_beq (s t : String) : (s != t || s == t) = true := by
  cases h : s == t <;> simp [bne, h]

theorem times_match_aware (cfg : SyncConfig) (m1 m2 : Nat) (w1 o1 w2 o2 : Int) :
    times_match cfg (some ⟨w1, m1, some o1⟩) (some ⟨w2, m2, some o2⟩)
      = decide (((w1 - o1) - (w2 - o2)).natAbs ≤ 60) := rfl

theorem significant_aware (cfg : SyncConfig) (ma mb mc md : Nat)
    (wa oa wb ob wc oc wd od : Int) :
    has_significant_time_difference cfg (some ⟨wa, ma, some oa⟩)
        (some ⟨wb, mb, some ob⟩) (some ⟨wc, mc, some oc⟩) (some ⟨wd, md, some od⟩)
      = decide
          (300000000 < ((wa - oa) * 1000000 + (ma : Int)
              - ((wb - ob) * 1000000 + (mb : Int))).natAbs
            ∨ 300000000 < ((wc - oc) * 1000000 + (mc : Int)
              - ((wd - od) * 1000000 + (md : Int))).natAbs) := rfl

theorem times_match_utc (cfg : SyncConfig) (m1 m2 : Nat) (w1 w2 : Int) :
    times_match cfg (some ⟨w1, m1, some 0⟩) (some ⟨w2, m2, some 0⟩)
      = decide ((w1 - w2).natAbs ≤ 60) := by
  simp only [times_match, decide_eq_decide]
  omega

theorem significant_utc (cfg : SyncConfig) (ma mb mc md : Nat) (wa wb wc wd : Int)
    (hma : ma = 0) (hmb : mb = 0) (hmc : mc = 0) (hmd : md = 0) :
    has_significant_time_difference cfg (some ⟨wa, ma, some 0⟩) (some ⟨wb, mb, some 0⟩)
        (some ⟨wc, mc, some 0⟩) (some ⟨wd, md, some 0⟩)
      = decide (300 < (wa - wb).natAbs ∨ 300 < (wc - wd).natAbs) := by
  subst hma hmb hmc hmd
  simp only [has_significant_time_difference, microInstant, decide_eq_decide]
  have h1 : (wa - 0) * 1000000 + ((0 : Nat) : Int) - ((wb - 0) * 1000000 + ((0 : Nat) : Int))
      = (wa - wb) * 1000000 := by push_cast; ring
  have h2 : (wc - 0) * 1000000 + ((0 : Nat) : Int) - ((wd - 0) * 1000000 + ((0 : Nat) : Int))
      = (wc - wd) * 1000000 := by push_cast; ring
  have h3 : (1000000 : Int).natAbs = 1000000 := rfl
  rw [h1, h2, Int.natAbs_mul, Int.natAbs_mul, h3]
  omega

theorem hash_ne_of_start_ne (e1 e2 : CalEvent) (h : e1.start ≠ e2.start) :
    calculate_event_hash e1 ≠ calculate_event_hash e2 := by
  intro heq
  exact h (congrArg HashKey.startPart heq)

/-- C4 (amended): for two events with identical summary (normalizing to a
nonempty string — the reschedule tier bails out on empty summaries) and
identical description, a start delta of exactly 301 seconds (the end
shifted equally) classifies as a tier-2 reschedule; a start delta of 60
seconds or less does NOT classify as a reschedule, but it resolves as a
skip via tier 1 only when the delta is 0 (identical stored times, hence an
identical fingerprint); for a nonzero delta up to 60 seconds the
fingerprint differs, tier 1 finds nothing, and the skip comes from the
tier-3 fuzzy-duplicate path. -/
theorem c4_reschedule_threshold (cfg : SyncConfig) (bk : MutCall → Bool)
    (sum desc loc1 loc2 : String) (id1 id2 : Option String) (ad1 ad2 : Bool)
    (w dur : Int) (hsum : normalize_text sum ≠ "") :
    ((sync_events cfg bk
        [⟨id1, sum, desc, loc1, some ⟨w + 301, 0, some 0⟩,
          some ⟨w + 301 + dur, 0, some 0⟩, ad1, "google"⟩]
        [⟨id2, sum, desc, loc2, some ⟨w, 0, some 0⟩,
          some ⟨w + dur, 0, some 0⟩, ad2, "icloud"⟩]
        "google_to_icloud" true false).decisions
      = [Action.reschedUpdate ⟨id2, sum, desc, loc2, some ⟨w, 0, some 0⟩,
          some ⟨w + dur, 0, some 0⟩, ad2, "icloud"⟩])
    ∧ (∀ δ : Int, 0 ≤ δ → δ ≤ 60 →
      (sync_events cfg bk
        [⟨id1, sum, desc, loc1, some ⟨w + δ, 0, some 0⟩,
          some ⟨w + δ + dur, 0, some 0⟩, ad1, "google"⟩]
        [⟨id2, sum, desc, loc2, some ⟨w, 0, some 0⟩,
          some ⟨w + dur, 0, some 0⟩, ad2, "icloud"⟩]
        "google_to_icloud" true false).decisions
      = (if δ = 0 then [Action.exactSkip] else [Action.similarSkip])) := by
  constructor
  · have hlook : target_lookup
        [⟨id2, sum, desc, loc2, some ⟨w, 0, some 0⟩, some ⟨w + dur, 0, some 0⟩, ad2, "icloud"⟩]
        (calculate_event_hash ⟨id1, sum, desc, loc1, some ⟨w + 301, 0, some 0⟩,
          some ⟨w + 301 + dur, 0, some 0⟩, ad1, "google"⟩) = none := by
      apply target_lookup_eq_none_spec
      intro t ht
      rw [List.mem_singleton] at ht
      subst ht
      apply hash_ne_of_start_ne
      simp only [ne_eq, Option.some.injEq, PyDateTime.mk.injEq]
      intro hcon
      omega
    have hre : find_rescheduled_event cfg
        ⟨id1, sum, desc, loc1, some ⟨w + 301, 0, some 0⟩,
          some ⟨w + 301 + dur, 0, some 0⟩, ad1, "google"⟩
        [⟨id2, sum, desc, loc2, some ⟨w, 0, some 0⟩, some ⟨w + dur, 0, some 0⟩, ad2, "icloud"⟩]
        = some ⟨id2, sum, desc, loc2, some ⟨w, 0, some 0⟩,
            some ⟨w + dur, 0, some 0⟩, ad2, "icloud"⟩ := by
      simp only [find_rescheduled_event, List.find?, times_match_utc,
        significant_utc cfg 0 0 0 0 _ _ _ _ rfl rfl rfl rfl, hsum]
      have h1 : (w + 301 - w).natAbs = 301 := by omega
      have h2 : (w + 301 + dur - (w + dur)).natAbs = 301 := by omega
      simp [h1, h2, bne_or_beq]
    simp [sync_events, classify, hlook, hre]
  · intro δ hδ0 hδ60
    by_cases hz : δ = 0
    · subst hz
      have hlook : target_lookup
          [⟨id2, sum, desc, loc2, some ⟨w, 0, some 0⟩, some ⟨w + dur, 0, some 0⟩, ad2, "icloud"⟩]
          (calculate_event_hash ⟨id1, sum, desc, loc1, some ⟨w + 0, 0, some 0⟩,
            some ⟨w + 0 + dur, 0, some 0⟩, ad1, "google"⟩)
          = some ⟨id2, sum, desc, loc2, some ⟨w, 0, some 0⟩,
              some ⟨w + dur, 0, some 0⟩, ad2, "icloud"⟩ := by
        simp [target_lookup, List.find?, calculate_event_hash]
      have hnu : needs_update cfg
          ⟨id1, sum, desc, loc1, some ⟨w + 0, 0, some 0⟩,
            some ⟨w + 0 + dur, 0, some 0⟩, ad1, "google"⟩
          ⟨id2, sum, desc, loc2, some ⟨w, 0, some 0⟩,
            some ⟨w + dur, 0, some 0⟩, ad2, "icloud"⟩ = false := by
        simp only [needs_update, times_match_utc]
        have h1 : (w + 0 - w).natAbs = 0 := by omega
        have h2 : (w + 0 + dur - (w + dur)).natAbs = 0 := by omega
        simp [h1, h2]
      simp only [add_zero] at hlook hnu
      simp [sync_events, classify, hlook, hnu]
    · have hlook : target_lookup
          [⟨id2, sum, desc, loc2, some ⟨w, 0, some 0⟩, some ⟨w + dur, 0, some 0⟩, ad2, "icloud"⟩]
          (calculate_event_hash ⟨id1, sum, desc, loc1, some ⟨w + δ, 0, some 0⟩,
            some ⟨w + δ + dur, 0, some 0⟩, ad1, "google"⟩) = none := by
        apply target_lookup_eq_none_spec
        intro t ht
        rw [List.mem_singleton] at ht
        subst ht
        apply hash_ne_of_start_ne
        simp only [ne_eq, Option.some.injEq, PyDateTime.mk.injEq]
        intro hcon
        exact hz (by omega)
      have hre : find_rescheduled_event cfg
          ⟨id1, sum, desc, loc1, some ⟨w + δ, 0, some 0⟩,
            some ⟨w + δ + dur, 0, some 0⟩, ad1, "google"⟩
          [⟨id2, sum, desc, loc2, some ⟨w, 0, some 0⟩, some ⟨w + dur, 0, some 0⟩, ad2, "icloud"⟩]
          = none := by
        simp only [find_rescheduled_event, List.find?, times_match_utc,
          significant_utc cfg 0 0 0 0 _ _ _ _ rfl rfl rfl rfl, hsum]
        have hb1 : decide ((w + δ - w).natAbs ≤ 60) = true :=
          decide_eq_true (by omega)
        have hb2 : decide ((w + δ + dur - (w + dur)).natAbs ≤ 60) = true :=
          decide_eq_true (by omega)
        have hb3 : decide (δ.natAbs ≤ 60) = true := decide_eq_true (by omega)
        have hb4 : decide ((300 : Nat) < δ.natAbs) = false :=
          decide_eq_false (by omega)
        have hb5 : decide ((300 : Nat) < (w + δ - w).natAbs) = false :=
          decide_eq_false (by omega)
        have hb6 : decide ((300 : Nat) < (w + δ + dur - (w + dur)).natAbs) = false :=
          decide_eq_false (by omega)
        simp [hb1, hb2, hb3, hb4, hb5, hb6]
      have hsi : find_similar_event cfg
          ⟨id1, sum, desc, loc1, some ⟨w + δ, 0, some 0⟩,
            some ⟨w + δ + dur, 0, some 0⟩, ad1, "google"⟩
          [⟨id2, sum, desc, loc2, some ⟨w, 0, some 0⟩, some ⟨w + dur, 0, some 0⟩, ad2, "icloud"⟩]
          = some ⟨id2, sum, desc, loc2, some ⟨w, 0, some 0⟩,
              some ⟨w + dur, 0, some 0⟩, ad2, "icloud"⟩ := by
        simp only [find_similar_event, List.find?, times_match_utc, hsum]
        have hb1 : decide ((w + δ - w).natAbs ≤ 60) = true :=
          decide_eq_true (by omega)
        have hb2 : decide ((w + δ + dur - (w + dur)).natAbs ≤ 60) = true :=
          decide_eq_true (by omega)
        have hb3 : decide (δ.natAbs ≤ 60) = true := decide_eq_true (by omega)
        simp [hb1, hb2, hb3]
      simp [sync_events, classify, hlook, hre, hsi, hz]

/-- C4 witness. -/
theorem c4_reschedule_threshold_witness :
    normalize_text "Standup" ≠ ""
    ∧ (sync_events cfgUTC neverFail [evStandup 301] [evStandupIC 0]
        "google_to_icloud" true false).decisions = [Action.reschedUpdate (evStandupIC 0)]
    ∧ (sync_events cfgUTC neverFail [evStandup 60] [evStandupIC 0]
        "google_to_icloud" true false).decisions = [Action.similarSkip] := by
  have h := c4_reschedule_threshold cfgUTC neverFail "Standup" "" "" ""
    none none false false 0 1800 (by decide)
  refine ⟨by decide, ?_, ?_⟩
  · simpa [evStandup, evStandupIC] using h.1
  · simpa [evStandup, evStandupIC] using h.2 60 (by omega) (by omega)

/-- C10: a source and target event with equal normalized summaries and
equal normalized descriptions (which covers the both-empty case), whose
start times differ by more than 60 but at most 300 seconds and whose end
times differ by at most 60 seconds (stated here for timezone-aware
whole-second times, as UTC-instant differences), match no tier: the
fingerprint differs (different stored start), the difference is below the
300-second reschedule significance threshold, and the starts do not
time-match, so the fuzzy tier fails too — the event is classified CREATE,
producing a near-duplicate in the target. -/
theorem c10_near_duplicate_window (cfg : SyncConfig) (bk : MutCall → Bool)
    (s t : CalEvent) (dir : String) (dry : Bool)
    (wa wb wc wd oa ob oc od : Int)
    (hsum : normalize_text s.summary = normalize_text t.summary)
    (hdesc : normalize_text s.description = normalize_text t.description)
    (hss : s.start = some ⟨wa, 0, some oa⟩) (hts : t.start = some ⟨wb, 0, some ob⟩)
    (hse : s.stop = some ⟨wc, 0, some oc⟩) (hte : t.stop = some ⟨wd, 0, some od⟩)
    (hstart1 : 60 < ((wa - oa) - (wb - ob)).natAbs)
    (hstart2 : ((wa - oa) - (wb - ob)).natAbs ≤ 300)
    (hend : ((wc - oc) - (wd - od)).natAbs ≤ 60) :
    target_lookup [t] (calculate_event_hash s) = none
    ∧ find_rescheduled_event cfg s [t] = none
    ∧ find_similar_event cfg s [t] = none
    ∧ (sync_events cfg bk [s] [t] dir dry false).decisions = [Action.create]
    ∧ (sync_events cfg bk [s] [t] dir dry false).stats.created = 1 := by
  have hstartne : t.start ≠ s.start := by
    rw [hss, hts]
    simp only [ne_eq, Option.some.injEq, PyDateTime.mk.injEq]
    intro hcon
    obtain ⟨hw, -, ho⟩ := hcon
    omega
  have hlook : target_lookup [t] (calculate_event_hash s) = none := by
    apply target_lookup_eq_none_spec
    intro u hu
    rw [List.mem_singleton] at hu
    rw [hu]
    exact hash_ne_of_start_ne t s hstartne
  have hsm : times_match cfg s.start t.start = false := by
    rw [hss, hts, times_match_aware]
    exact decide_eq_false (by omega)
  have hem : times_match cfg s.stop t.stop = true := by
    rw [hse, hte, times_match_aware]
    exact decide_eq_true (by omega)
  have hsig : has_significant_time_difference cfg s.start t.start s.stop t.stop
      = false := by
    rw [hss, hts, hse, hte, significant_aware]
    apply decide_eq_false
    have h1 : (wa - oa) * 1000000 + ((0 : Nat) : Int)
        - ((wb - ob) * 1000000 + ((0 : Nat) : Int))
        = ((wa - oa) - (wb - ob)) * 1000000 := by push_cast; ring
    have h2 : (wc - oc) * 1000000 + ((0 : Nat) : Int)
        - ((wd - od) * 1000000 + ((0 : Nat) : Int))
        = ((wc - oc) - (wd - od)) * 1000000 := by push_cast; ring
    rw [h1, h2, Int.natAbs_mul, Int.natAbs_mul]
    have h3 : (1000000 : Int).natAbs = 1000000 := rfl
    rw [h3]
    omega
  have hre : find_rescheduled_event cfg s [t] = none := by
    unfold find_rescheduled_event
    by_cases hempty : normalize_text s.summary = ""
    · simp [hempty]
    · rw [if_neg (by simp [hempty, hss, hse])]
      rw [List.find?_cons_of_neg, List.find?_nil]
      simp [hsig]
  have hsi : find_similar_event cfg s [t] = none := by
    unfold find_similar_event
    by_cases hempty : normalize_text s.summary = ""
    · simp [hempty]
    · rw [if_neg (by simp [hempty, hss, hse])]
      rw [List.find?_cons_of_neg, List.find?_nil]
      simp [hsm]
  refine ⟨hlook, hre, hsi, ?_, ?_⟩ <;>
    simp [sync_events, classify, hlook, hre, hsi, bump]

/-- C10 witness: start delta 120 seconds, end delta 0. -/
theorem c10_near_duplicate_window_witness :
    (sync_events cfgUTC neverFail
        [⟨none, "Standup", "", "", some ⟨120, 0, some 0⟩,
          some ⟨1800, 0, some 0⟩, false, "google"⟩]
        [⟨none, "Standup", "", "", some ⟨0, 0, some 0⟩,
          some ⟨1800, 0, some 0⟩, false, "icloud"⟩]
        "google_to_icloud" false false).decisions = [Action.create]
    ∧ 60 < ((120 - 0 : Int) - (0 - 0)).natAbs := by
  refine ⟨?_, by decide⟩
  exact (c10_near_duplicate_window cfgUTC neverFail
    ⟨none, "Standup", "", "", some ⟨120, 0, some 0⟩,
      some ⟨1800, 0, some 0⟩, false, "google"⟩
    ⟨none, "Standup", "", "", some ⟨0, 0, some 0⟩,
      some ⟨1800, 0, some 0⟩, false, "icloud"⟩
    "google_to_icloud" false 120 0 1800 1800 0 0 0 0
    rfl rfl rfl rfl rfl rfl (by decide) (by decide) (by decide)).2.2.2.1

theorem not_isPrefixOf_ws (p : List Char) (hp : p ≠ [])
    (hnw : ∀ c ∈ p, pyIsSpace c = false) (c : Char) (hc : pyIsSpace c = true)
    (cs : List Char) : p.isPrefixOf (c :: cs) = false := by
  cases p with
  | nil => exact absurd rfl hp
  | cons q qs =>
    have hq : pyIsSpace q = false := hnw q (List.mem_cons_self q qs)
    have hqc : (q == c) = false := by
      apply beq_eq_false_iff_ne.mpr
      intro h
      rw [h, hc] at hq
      exact Bool.noConfusion hq
    simp [List.isPrefixOf, hqc]

theorem ra_cons_ws (p r : List Char) (hp : p ≠ [])
    (hnw : ∀ c ∈ p, pyIsSpace c = false) (c : Char) (hc : pyIsSpace c = true)
    (cs : List Char) : replaceAll p r (c :: cs) = c :: replaceAll p r cs := by
  rw [replaceAll_cons, if_neg]
  rw [not_isPrefixOf_ws p hp hnw c hc cs]
  simp

theorem isPrefixOf_append_ws (p : List Char)
    (hnw : ∀ c ∈ p, pyIsSpace c = false) (w : List Char) (d : Char)
    (hd : pyIsSpace d = true) (t : List Char) :
    p.isPrefixOf (w ++ d :: t) = p.isPrefixOf w := by
  by_cases h : p.isPrefixOf w
  · rw [h]
    rw [List.isPrefixOf_iff_prefix] at h ⊢
    exact h.trans (List.prefix_append w (d :: t))
  · have hfalse : p.isPrefixOf w = false := Bool.eq_false_iff.mpr h
    rw [hfalse]
    apply Bool.eq_false_iff.mpr
    intro hbig
    rw [List.isPrefixOf_iff_prefix] at hbig
    rcases le_or_lt p.length w.length with hle | hlt
    · have hw : w <+: w ++ d :: t := List.prefix_append w (d :: t)
      have : p <+: w := List.prefix_of_prefix_length_le hbig hw hle
      exact h (List.isPrefixOf_iff_prefix.mpr this)
    · have hw : w <+: w ++ d :: t := List.prefix_append w (d :: t)
      have hwp : w <+: p := List.prefix_of_prefix_length_le hw hbig (le_of_lt hlt)
      obtain ⟨p2, hp2⟩ := hwp
      obtain ⟨u, hu⟩ := hbig
      rw [← hp2, List.append_assoc] at hu
      have hp2u : p2 ++ u = d :: t := List.append_cancel_left hu
      cases p2 with
      | nil =>
        rw [← hp2] at hlt
        simp at hlt
      | cons a p2' =>
        have ha : a = d := by
          have := congrArg (fun l => l.head?) hp2u
          simpa using this
        have hmem : a ∈ p := by
          rw [← hp2]
          exact List.mem_append_right w (List.mem_cons_self a p2')
        rw [ha] at hmem
        rw [hnw d hmem] at hd
        exact Bool.noConfusion hd

theorem ra_append_ws (p r : List Char) (hp : p ≠ [])
    (hnw : ∀ c ∈ p, pyIsSpace c = false) (d : Char) (hd : pyIsSpace d = true)
    (t : List Char) :
    ∀ n : Nat, ∀ w : List Char, w.length ≤ n →
      replaceAll p r (w ++ d :: t) = replaceAll p r w ++ replaceAll p r (d :: t) := by
  intro n
  induction n with
  | zero =>
    intro w hw
    have : w = [] := List.length_eq_zero.mp (Nat.le_zero.mp hw)
    subst this
    simp [replaceAll_nil]
  | succ n ih =>
    intro w hw
    cases w with
    | nil => simp [replaceAll_nil]
    | cons c w' =>
      have hpre := isPrefixOf_append_ws p hnw (c :: w') d hd t
      rw [List.cons_append] at hpre
      by_cases hc : p.isPrefixOf (c :: w')
      · have hbig : p.isPrefixOf (c :: (w' ++ d :: t)) = true := by rw [hpre]; exact hc
        rw [List.cons_append, replaceAll_cons p r c (w' ++ d :: t), if_pos hbig,
          replaceAll_cons p r c w', if_pos hc]
        have hlen : p.length ≤ w'.length + 1 := by
          have := (List.isPrefixOf_iff_prefix.mp hc).length_le
          simpa using this
        have hlen' : p.length - 1 ≤ w'.length := by omega
        rw [List.drop_append_of_le_length hlen']
        rw [ih (w'.drop (p.length - 1)) (by simp at hw ⊢; omega)]
        rw [List.append_assoc]
      · have hbig : ¬ (p.isPrefixOf (c :: (w' ++ d :: t)) = true) := by
          rw [hpre]; exact hc
        rw [List.cons_append, replaceAll_cons p r c (w' ++ d :: t), if_neg hbig,
          replaceAll_cons p r c w', if_neg hc]
        rw [ih w' (by simpa using hw)]
        rfl

theorem words_cons_ws (c : Char) (hc : pyIsSpace c = true) (cs : List Char) :
    words (c :: cs) = words cs := by
  simp [words, wordsAux, hc]

theorem wordsAux_all_ws (ys : List Char) (hys : ∀ c ∈ ys, pyIsSpace c = true) :
    ∀ acc, wordsAux ys acc = wordsAux [] acc := by
  induction ys with
  | nil => intro acc; rfl
  | cons y ys' ih =>
    intro acc
    have hy : pyIsSpace y = true := hys y (List.mem_cons_self y ys')
    have hrest : ∀ c ∈ ys', pyIsSpace c = true :=
      fun c hc => hys c (List.mem_cons_of_mem y hc)
    have hnil : wordsAux ys' [] = [] := ih hrest []
    simp [wordsAux, hy, hnil]

theorem wordsAux_append_all_ws (ys : List Char)
    (hys : ∀ c ∈ ys, pyIsSpace c = true) :
    ∀ xs : List Char, ∀ acc, wordsAux (xs ++ ys) acc = wordsAux xs acc := by
  intro xs
  induction xs with
  | nil =>
    intro acc
    simpa using wordsAux_all_ws ys hys acc
  | cons x xs' ih =>
    intro acc
    cases hx : pyIsSpace x <;> simp [wordsAux, hx, ih]

theorem wordsAux_append_ws_cons (d : Char) (hd : pyIsSpace d = true)
    (ys : List Char) :
    ∀ xs : List Char, ∀ acc,
      wordsAux (xs ++ d :: ys) acc = wordsAux xs acc ++ wordsAux ys [] := by
  intro xs
  induction xs with
  | nil =>
    intro acc
    cases hacc : acc.isEmpty <;> simp [wordsAux, hd, hacc]
  | cons x xs' ih =>
    intro acc
    cases hx : pyIsSpace x
    · simp [wordsAux, hx, ih]
    · by_cases hacc : acc = [] <;> simp [wordsAux, hx, hacc, ih]

theorem words_append_ws_cons (d : Char) (hd : pyIsSpace d = true)
    (xs ys : List Char) : words (xs ++ d :: ys) = words xs ++ words ys :=
  wordsAux_append_ws_cons d hd ys xs []

theorem wordsAux_all_nonws (w : List Char)
    (hw : ∀ c ∈ w, pyIsSpace c = false) :
    ∀ acc : List Char,
      wordsAux w acc
        = if (acc.reverse ++ w).isEmpty then [] else [acc.reverse ++ w] := by
  induction w with
  | nil =>
    intro acc
    cases hacc : acc.isEmpty
    · have : acc ≠ [] := by
        intro h; subst h; simp at hacc
      simp [wordsAux, hacc, this]
    · have : acc = [] := by
        cases acc with
        | nil => rfl
        | cons a as => simp at hacc
      subst this
      simp [wordsAux]
  | cons c w' ih =>
    intro acc
    have hc : pyIsSpace c = false := hw c (List.mem_cons_self c w')
    have hrest : ∀ x ∈ w', pyIsSpace x = false :=
      fun x hx => hw x (List.mem_cons_of_mem c hx)
    rw [wordsAux]
    rw [hc]
    simp only [Bool.false_eq_true, if_false]
    rw [ih hrest (c :: acc)]
    simp

theorem words_single (w : List Char) (hw : ∀ c ∈ w, pyIsSpace c = false)
    (hne : w ≠ []) : words w = [w] := by
  have := wordsAux_all_nonws w hw []
  simpa [words, hne] using this

theorem words_dropWhile (s : List Char) :
    words (s.dropWhile pyIsSpace) = words s := by
  induction s with
  | nil => rfl
  | cons c cs ih =>
    cases hc : pyIsSpace c
    · simp [List.dropWhile_cons, hc]
    · rw [List.dropWhile_cons]
      rw [hc]
      simpa [words_cons_ws c hc cs] using ih

theorem mem_takeWhile_pyIsSpace (l : List Char) (c : Char)
    (hc : c ∈ l.takeWhile pyIsSpace) : pyIsSpace c = true := by
  induction l with
  | nil => simp [List.takeWhile] at hc
  | cons x xs ih =>
    rw [List.takeWhile_cons] at hc
    by_cases hx : pyIsSpace x
    · rw [if_pos hx] at hc
      rcases List.mem_cons.mp hc with h | h
      · rw [h]; exact hx
      · exact ih h
    · rw [if_neg hx] at hc
      simp at hc

theorem words_strip (s : List Char) : words (pyStrip s) = words s := by
  have h1 : words (s.dropWhile pyIsSpace) = words s := words_dropWhile s
  set u := s.dropWhile pyIsSpace with hu
  have hdecomp : u = (u.reverse.dropWhile pyIsSpace).reverse
      ++ (u.reverse.takeWhile pyIsSpace).reverse := by
    conv_lhs => rw [← List.reverse_reverse u]
    conv_lhs => rw [← List.takeWhile_append_dropWhile (p := pyIsSpace) (l := u.reverse)]
    rw [List.reverse_append]
  have hws : ∀ c ∈ (u.reverse.takeWhile pyIsSpace).reverse, pyIsSpace c = true := by
    intro c hc
    rw [List.mem_reverse] at hc
    exact mem_takeWhile_pyIsSpace u.reverse c hc
  have h2 : words ((u.reverse.dropWhile pyIsSpace).reverse
      ++ (u.reverse.takeWhile pyIsSpace).reverse)
      = words (u.reverse.dropWhile pyIsSpace).reverse :=
    wordsAux_append_all_ws _ hws _ []
  calc words (pyStrip s) = words (u.reverse.dropWhile pyIsSpace).reverse := rfl
    _ = words u := by rw [← h2, ← hdecomp]
    _ = words s := h1

theorem dropWhile_head_false {α : Type} (q : α → Bool) :
    ∀ l : List α, ∀ a : α, ∀ as : List α, l.dropWhile q = a :: as → q a = false := by
  intro l
  induction l with
  | nil => intro a as h; simp [List.dropWhile] at h
  | cons x xs ih =>
    intro a as h
    rw [List.dropWhile_cons] at h
    by_cases hx : q x
    · rw [if_pos hx] at h
      exact ih a as h
    · rw [if_neg hx] at h
      obtain ⟨h1, -⟩ := List.cons.injEq x xs a as ▸ h
      rw [← h1]
      exact Bool.eq_false_iff.mpr hx

theorem mem_takeWhile_nonws (l : List Char) (c : Char)
    (hc : c ∈ l.takeWhile (fun x => !pyIsSpace x)) : pyIsSpace c = false := by
  induction l with
  | nil => simp [List.takeWhile] at hc
  | cons x xs ih =>
    rw [List.takeWhile_cons] at hc
    by_cases hx : (!pyIsSpace x) = true
    · rw [if_pos hx] at hc
      rcases List.mem_cons.mp hc with h | h
      · rw [h]
        simpa using hx
      · exact ih h
    · rw [if_neg hx] at hc
      simp at hc

/-- The word decomposition of `replaceAll`: since the pattern contains no
whitespace, occurrences never span a whitespace separator, so replacing in
the whole string splits into replacing within each word. -/
theorem words_replaceAll (p r : List Char) (hp : p ≠ [])
    (hnw : ∀ c ∈ p, pyIsSpace c = false) :
    ∀ n : Nat, ∀ s : List Char, s.length ≤ n →
      words (replaceAll p r s)
        = List.flatten ((words s).map (fun w => words (replaceAll p r w))) := by
  intro n
  induction n with
  | zero =>
    intro s hs
    have : s = [] := List.length_eq_zero.mp (Nat.le_zero.mp hs)
    subst this
    rfl
  | succ n ih =>
    intro s hs
    cases s with
    | nil => rfl
    | cons c cs =>
      cases hc : pyIsSpace c
      · have hdecomp := List.takeWhile_append_dropWhile
          (p := fun x => !pyIsSpace x) (l := cs)
        set tk := cs.takeWhile (fun x => !pyIsSpace x) with htk
        set dp := cs.dropWhile (fun x => !pyIsSpace x) with hdp
        have hwword : ∀ x ∈ c :: tk, pyIsSpace x = false := by
          intro x hx
          rcases List.mem_cons.mp hx with h | h
          · rw [h]; exact hc
          · exact mem_takeWhile_nonws cs x h
        cases hdpc : dp with
        | nil =>
          have hcs : cs = tk := by
            rw [← hdecomp, hdpc, List.append_nil]
          have hall : ∀ x ∈ c :: cs, pyIsSpace x = false := by
            rw [hcs]; exact hwword
          rw [words_single (c :: cs) hall (by simp)]
          simp
        | cons d dp' =>
          have hdw : pyIsSpace d = true := by
            have := dropWhile_head_false (fun x => !pyIsSpace x) cs d dp' (by rw [← hdp, hdpc])
            simpa using this
          have hsplit : c :: cs = (c :: tk) ++ d :: dp' := by
            rw [List.cons_append]
            congr 1
            rw [← hdecomp, hdpc]
          rw [hsplit]
          rw [ra_append_ws p r hp hnw d hdw dp' (c :: tk).length (c :: tk) le_rfl]
          rw [ra_cons_ws p r hp hnw d hdw dp']
          rw [words_append_ws_cons d hdw (replaceAll p r (c :: tk)) (replaceAll p r dp')]
          rw [words_append_ws_cons d hdw (c :: tk) dp']
          rw [words_single (c :: tk) hwword (by simp)]
          have hlen : dp'.length ≤ n := by
            have h1 : tk.length + dp.length = cs.length := by
              rw [← hdecomp]
              simp
            rw [hdpc] at h1
            simp at h1 hs
            omega
          rw [ih dp' hlen]
          simp
      · rw [ra_cons_ws p r hp hnw c hc cs]
        rw [words_cons_ws c hc (replaceAll p r cs)]
        rw [words_cons_ws c hc cs]
        exact ih cs (by simpa using hs)

theorem words_replaceAll_congr (p r : List Char) (hp : p ≠ [])
    (hnw : ∀ c ∈ p, pyIsSpace c = false) (s1 s2 : List Char)
    (h : words s1 = words s2) :
    words (replaceAll p r s1) = words (replaceAll p r s2) := by
  rw [words_replaceAll p r hp hnw s1.length s1 le_rfl,
    words_replaceAll p r hp hnw s2.length s2 le_rfl, h]

theorem words_unescape_congr (s1 s2 : List Char) (h : words s1 = words s2) :
    words (unescape s1) = words (unescape s2) := by
  unfold unescape
  apply words_replaceAll_congr _ _ (by decide) (by decide)
  apply words_replaceAll_congr _ _ (by decide) (by decide)
  apply words_replaceAll_congr _ _ (by decide) (by decide)
  exact words_replaceAll_congr _ _ (by decide) (by decide) s1 s2 h

theorem normalize_text_pipeline (s : String) :
    normalize_text s
      = String.mk ((joinWords (words (unescape (pyStrip s.data)))).map Char.toLower) := by
  unfold normalize_text
  by_cases hs : s = ""
  · subst hs; rfl
  · rw [if_neg hs]

/-- Two strings with the same whitespace-separated word sequence
normalize identically. -/
theorem normalize_text_words_congr (s1 s2 : String)
    (h : words s1.data = words s2.data) :
    normalize_text s1 = normalize_text s2 := by
  rw [normalize_text_pipeline, normalize_text_pipeline]
  have h1 : words (pyStrip s1.data) = words (pyStrip s2.data) := by
    rw [words_strip, words_strip, h]
  rw [words_unescape_congr _ _ h1]

theorem ra_cons_skip_head (a : Char) (p' r : List Char) (c : Char) (x : List Char)
    (h : ¬ a = c) : replaceAll (a :: p') r (c :: x) = c :: replaceAll (a :: p') r x := by
  rw [replaceAll_cons, if_neg]
  simp [List.isPrefixOf, beq_eq_false_iff_ne.mpr h]

theorem ra2_cons_match (a b2 : Char) (r : List Char) (x : List Char) :
    replaceAll [a, b2] r (a :: b2 :: x) = r ++ replaceAll [a, b2] r x := by
  rw [replaceAll_cons, if_pos]
  · simp
  · simp [List.isPrefixOf]

theorem ra2_cons_skip2 (a b2 : Char) (r : List Char) (c : Char) (x : List Char)
    (h : ¬ b2 = c) : replaceAll [a, b2] r (a :: c :: x)
      = a :: replaceAll [a, b2] r (c :: x) := by
  rw [replaceAll_cons, if_neg]
  simp [List.isPrefixOf, beq_eq_false_iff_ne.mpr h]

theorem ra_unesc_comma (s : List Char) (hb : ∀ c ∈ s, c ≠ '\\') :
    replaceAll ['\\', ','] [','] (esc s) = escA s := by
  induction s with
  | nil => rfl
  | cons c s' ih =>
    have hc : c ≠ '\\' := hb c (List.mem_cons_self c s')
    have ihr := ih (fun x hx => hb x (List.mem_cons_of_mem c hx))
    have hstep : esc (c :: s') = escChar c ++ esc s' := by simp [esc]
    have hstepA : escA (c :: s') = escCharA c ++ escA s' := by simp [escA]
    rw [hstep, hstepA]
    by_cases h1 : c = ','
    · subst h1
      have hec : escChar ',' = ['\\', ','] := by decide
      have heca : escCharA ',' = [','] := by decide
      rw [hec, heca]
      simp only [List.cons_append, List.nil_append]
      rw [ra2_cons_match, ihr]
      rfl
    · by_cases h2 : c = ';'
      · subst h2
        have hec : escChar ';' = ['\\', ';'] := by decide
        have heca : escCharA ';' = ['\\', ';'] := by decide
        rw [hec, heca]
        simp only [List.cons_append, List.nil_append]
        rw [ra2_cons_skip2 _ _ _ _ _ (by decide),
          ra_cons_skip_head _ _ _ _ _ (by decide), ihr]
      · by_cases h3 : c = '\n'
        · subst h3
          have hec : escChar '\n' = ['\\', 'n'] := by decide
          have heca : escCharA '\n' = ['\\', 'n'] := by decide
          rw [hec, heca]
          simp only [List.cons_append, List.nil_append]
          rw [ra2_cons_skip2 _ _ _ _ _ (by decide),
            ra_cons_skip_head _ _ _ _ _ (by decide), ihr]
        · have hec : escChar c = [c] := by simp [escChar, h1, h2, h3, hc]
          have heca : escCharA c = [c] := by simp [escCharA, h2, h3]
          rw [hec, heca]
          simp only [List.cons_append, List.nil_append]
          rw [ra_cons_skip_head _ _ _ _ _ (fun h => hc h.symm), ihr]

theorem ra_unesc_semi (s : List Char) (hb : ∀ c ∈ s, c ≠ '\\') :
    replaceAll ['\\', ';'] [';'] (escA s) = escB s := by
  induction s with
  | nil => rfl
  | cons c s' ih =>
    have hc : c ≠ '\\' := hb c (List.mem_cons_self c s')
    have ihr := ih (fun x hx => hb x (List.mem_cons_of_mem c hx))
    have hstep : escA (c :: s') = escCharA c ++ escA s' := by simp [escA]
    have hstepB : escB (c :: s') = escCharB c ++ escB s' := by simp [escB]
    rw [hstep, hstepB]
    by_cases h2 : c = ';'
    · subst h2
      have heca : escCharA ';' = ['\\', ';'] := by decide
      have hecb : escCharB ';' = [';'] := by decide
      rw [heca, hecb]
      simp only [List.cons_append, List.nil_append]
      rw [ra2_cons_match, ihr]
      rfl
    · by_cases h3 : c = '\n'
      · subst h3
        have heca : escCharA '\n' = ['\\', 'n'] := by decide
        have hecb : escCharB '\n' = ['\\', 'n'] := by decide
        rw [heca, hecb]
        simp only [List.cons_append, List.nil_append]
        rw [ra2_cons_skip2 _ _ _ _ _ (by decide),
          ra_cons_skip_head _ _ _ _ _ (by decide), ihr]
      · have heca : escCharA c = [c] := by simp [escCharA, h2, h3]
        have hecb : escCharB c = [c] := by simp [escCharB, h3]
        rw [heca, hecb]
        simp only [List.cons_append, List.nil_append]
        rw [ra_cons_skip_head _ _ _ _ _ (fun h => hc h.symm), ihr]

theorem ra_unesc_newline (s : List Char) (hb : ∀ c ∈ s, c ≠ '\\') :
    replaceAll ['\\', 'n'] ['\n'] (escB s) = s := by
  induction s with
  | nil => rfl
  | cons c s' ih =>
    have hc : c ≠ '\\' := hb c (List.mem_cons_self c s')
    have ihr := ih (fun x hx => hb x (List.mem_cons_of_mem c hx))
    have hstep : escB (c :: s') = escCharB c ++ escB s' := by simp [escB]
    rw [hstep]
    by_cases h3 : c = '\n'
    · subst h3
      have hecb : escCharB '\n' = ['\\', 'n'] := by decide
      rw [hecb]
      simp only [List.cons_append, List.nil_append]
      rw [ra2_cons_match, ihr]
      rfl
    · have hecb : escCharB c = [c] := by simp [escCharB, h3]
      rw [hecb]
      simp only [List.cons_append, List.nil_append]
      rw [ra_cons_skip_head _ _ _ _ _ (fun h => hc h.symm), ihr]

theorem ra_id_of_no_backslash (p' r : List Char) (s : List Char)
    (hb : ∀ c ∈ s, c ≠ '\\') : replaceAll ('\\' :: p') r s = s := by
  induction s with
  | nil => rfl
  | cons c s' ih =>
    have hc : c ≠ '\\' := hb c (List.mem_cons_self c s')
    have ihr := ih (fun x hx => hb x (List.mem_cons_of_mem c hx))
    rw [ra_cons_skip_head _ _ _ _ _ (fun h => hc h.symm), ihr]

/-- For a backslash-free text, unescaping its escaped form recovers the
text. -/
theorem unescape_esc (s : List Char) (hb : ∀ c ∈ s, c ≠ '\\') :
    unescape (esc s) = s := by
  unfold unescape
  rw [ra_unesc_comma s hb, ra_unesc_semi s hb, ra_unesc_newline s hb,
    ra_id_of_no_backslash _ _ s hb]

/-- A backslash-free text is a fixed point of unescaping. -/
theorem unescape_id_of_no_backslash (s : List Char) (hb : ∀ c ∈ s, c ≠ '\\') :
    unescape s = s := by
  unfold unescape
  rw [ra_id_of_no_backslash _ _ s hb, ra_id_of_no_backslash _ _ s hb,
    ra_id_of_no_backslash _ _ s hb, ra_id_of_no_backslash _ _ s hb]

/-- C8 (amended): the fingerprint is deterministic and invariant to the
event's location text; it is invariant to whitespace-run differences in
the summary (equal whitespace-separated word sequences give equal
fingerprints); and it is invariant to escaping of the summary provided the
unescaped text is backslash-free — escaping a summary that itself contains
backslashes can make an escape sequence's backslash shield a following
one, changing the normalized text and hence the fingerprint (see the
counterexample). -/
theorem c8_fingerprint_invariants :
    (∀ e : CalEvent, calculate_event_hash e = calculate_event_hash e)
    ∧ (∀ e : CalEvent, ∀ loc : String,
        calculate_event_hash { e with location := loc } = calculate_event_hash e)
    ∧ (∀ e : CalEvent, ∀ s' : String, words e.summary.data = words s'.data →
        calculate_event_hash { e with summary := s' } = calculate_event_hash e)
    ∧ (∀ e : CalEvent, ∀ s : String, (∀ c ∈ s.data, c ≠ '\\') →
        calculate_event_hash { e with summary := String.mk (esc s.data) }
          = calculate_event_hash { e with summary := s }) := by
  refine ⟨fun e => rfl, fun e loc => rfl, ?_, ?_⟩
  · intro e s' h
    unfold calculate_event_hash
    rw [normalize_text_words_congr s' e.summary h.symm]
  · intro e s hb
    unfold calculate_event_hash
    have hkey : normalize_text (String.mk (esc s.data)) = normalize_text s := by
      rw [normalize_text_pipeline, normalize_text_pipeline]
      have hdata : (String.mk (esc s.data)).data = esc s.data := rfl
      rw [hdata]
      have e1 : words (unescape (pyStrip (esc s.data))) = words (unescape (esc s.data)) :=
        words_unescape_congr _ _ (words_strip (esc s.data))
      have e2 : unescape (esc s.data) = s.data := unescape_esc s.data hb
      have e3 : words (unescape (pyStrip s.data)) = words (unescape s.data) :=
        words_unescape_congr _ _ (words_strip s.data)
      have e4 : unescape s.data = s.data := unescape_id_of_no_backslash s.data hb
      rw [e1, e2, e3, e4]
    rw [hkey]

/-- C8 witness: a summary with a doubled space normalizes like the single-
space form, and escaping the backslash-free summary `x,y` (giving `x\,y`)
leaves the fingerprint unchanged. -/
theorem c8_fingerprint_invariants_witness :
    words ("Standup  now" : String).data = words ("Standup now" : String).data
    ∧ (∀ c ∈ ("x,y" : String).data, c ≠ '\\')
    ∧ calculate_event_hash { evNoTimes with summary := "Standup  now" }
        = calculate_event_hash { evNoTimes with summary := "Standup now" }
    ∧ calculate_event_hash { evNoTimes with summary := String.mk (esc ("x,y" : String).data) }
        = calculate_event_hash { evNoTimes with summary := "x,y" } := by
  refine ⟨by decide, by decide, ?_, ?_⟩
  · have h := c8_fingerprint_invariants.2.2.1
      { evNoTimes with summary := "Standup now" } "Standup  now" (by decide)
    simpa using h
  · exact c8_fingerprint_invariants.2.2.2 evNoTimes "x,y" (by decide)

/-- C8 counterexample: two events that differ only in an escape sequence
in the summary — `evEsc1`'s summary is the two characters `\,`, and
`evEsc2`'s summary replaces that comma with the escape sequence `\,`,
giving the three characters `\\,` — have different fingerprints: the
sequential `str.replace` unescaping turns the first into `,` but the
second into `\,` (the leading backslash shields the second), so the claim
that escaping differences never change the fingerprint fails. -/
theorem c8_counterexample :
    calculate_event_hash evEsc1 ≠ calculate_event_hash evEsc2 := by
  decide

end CalendarSync
